import Mathlib

/-!
Verification of the semantic-search engine (`main.py`) of this repository.

Texts are embedded as `List Char` (one entry per Python character).  The
splitting pipeline of `RecursiveCharacterTextSplitter` (langchain), which the
engine constructs with `chunk_size=1000, chunk_overlap=200, length_function=len`,
is translated function by function: `_split_text_with_regex`, `_merge_splits`
(with its inner while loop), the separator-selection loop and the recursive
`_split_text`.  The engine itself (`SemanticSearchEngine`) is embedded as pure
state-passing functions that also return the list of external effects (SDK
calls and prints) they perform, with the behaviour of the external services
(Pinecone, Google embeddings, document loaders) supplied as explicit
environment parameters.
-/

namespace SemanticSearch

/-- Whitespace removed by Python `str.strip()` (the ASCII whitespace range:
space, tab, newline, carriage return, vertical tab, form feed). -/
def isPyWs (c : Char) : Bool :=
  c = ' ' || c = '\t' || c = '\n' || c = '\r' || c = Char.ofNat 11 || c = Char.ofNat 12

/-- Python `str.strip()` on a list of characters. -/
def stripL (l : List Char) : List Char :=
  ((l.dropWhile isPyWs).reverse.dropWhile isPyWs).reverse

/-- Scan for the leftmost occurrence of the (non-empty) separator, keeping the
characters already passed in `acc` (reversed). -/
def splitFirstAux (sep : List Char) (acc : List Char) : List Char → Option (List Char × List Char)
  | [] => none
  | c :: cs =>
    if sep.isPrefixOf (c :: cs) then some (acc.reverse, (c :: cs).drop sep.length)
    else splitFirstAux sep (c :: acc) cs

/-- The leftmost occurrence of the (non-empty) separator in the text:
the part before it and the part after it, `none` when it does not occur. -/
def splitFirst (sep text : List Char) : Option (List Char × List Char) :=
  splitFirstAux sep [] text

/-- Whether the separator occurs in the text (Python `re.search` on an
escaped separator). -/
def containsSep (text sep : List Char) : Bool :=
  (splitFirst sep text).isSome

/-- Split on every occurrence of the separator, left to right (Python
`re.split` on an escaped separator, pieces only).  Each step removes at least
one character, so a fuel of the text length is enough. -/
def splitOnAux (sep : List Char) : Nat → List Char → List (List Char)
  | 0, text => [text]
  | fuel + 1, text =>
    match splitFirst sep text with
    | none => [text]
    | some (b, a) => b :: splitOnAux sep fuel a

def splitOnL (sep text : List Char) : List (List Char) :=
  splitOnAux sep text.length text

/-- `sep.join parts` (the separator interleaved between the parts). -/
def interS (sep : List Char) : List (List Char) → List Char
  | [] => []
  | [p] => p
  | p :: q :: r => p ++ sep ++ interS sep (q :: r)

/-- langchain `_split_text_with_regex` with `keep_separator=True`: split on the
separator, re-attach each separator to the front of the piece that follows it,
and drop empty pieces; the empty separator splits into single characters. -/
def splitWithSep (text sep : List Char) : List (List Char) :=
  if sep.isEmpty then
    text.map (fun c => [c])
  else
    match splitOnL sep text with
    | [] => []
    | p :: ps => (p :: ps.map (fun q => sep ++ q)).filter (fun s => !s.isEmpty)

/-- State of the running loop of `TextSplitter._merge_splits`:
the emitted chunks, the retained window of pieces, and the retained length. -/
structure MergeAcc where
  docs : List (List Char)
  cur : List (List Char)
  total : Nat

/-- `TextSplitter._join_docs` with the empty joining separator (the splitter
keeps separators, so it always joins with `""`): concatenate, strip, and drop
the chunk when the result is empty. -/
def joinDocs (cur : List (List Char)) : Option (List Char) :=
  let text := stripL cur.flatten
  if text.isEmpty then none else some text

/-- Append the joined window to the emitted chunks, unless it strips to empty. -/
def emitDoc (docs : List (List Char)) (cur : List (List Char)) : List (List Char) :=
  match joinDocs cur with
  | some t => docs ++ [t]
  | none => docs

/-- The inner while loop of `_merge_splits`: drop leading pieces of the window
while the retained total exceeds the overlap, or while the next piece (of
length `dlen`) would not fit the chunk size beside a non-empty total. -/
def shrink (cs co dlen : Nat) : List (List Char) → Nat → List (List Char) × Nat
  | [], tot => ([], tot)
  | x :: xs, tot =>
    if co < tot ∨ (cs < tot + dlen ∧ 0 < tot) then
      shrink cs co dlen xs (tot - x.length)
    else (x :: xs, tot)

/-- One iteration of the for loop of `_merge_splits` (joining separator `""`,
so the separator length is 0). -/
def mergeStep (cs co : Nat) (acc : MergeAcc) (d : List Char) : MergeAcc :=
  let len := d.length
  let acc1 :=
    if cs < acc.total + len then
      if acc.cur.isEmpty then acc
      else
        let docs1 := emitDoc acc.docs acc.cur
        let p := shrink cs co len acc.cur acc.total
        { docs := docs1, cur := p.1, total := p.2 }
    else acc
  { docs := acc1.docs, cur := acc1.cur ++ [d], total := acc1.total + len }

/-- `TextSplitter._merge_splits` on pieces that are kept separator-joined. -/
def mergeSplits (cs co : Nat) (splits : List (List Char)) : List (List Char) :=
  let acc := splits.foldl (mergeStep cs co) ⟨[], [], 0⟩
  emitDoc acc.docs acc.cur

/-- The separator-selection loop at the head of
`RecursiveCharacterTextSplitter._split_text`: take the first separator that is
empty or occurs in the text, together with the remaining separators; when none
qualifies the last separator is kept with no remaining ones. -/
def chooseSep (text : List Char) : List (List Char) → List Char × List (List Char)
  | [] => ([], [])
  | s :: rest =>
    if s.isEmpty then ([], [])
    else if containsSep text s then (s, rest)
    else
      match rest with
      | [] => (s, [])
      | _ :: _ => chooseSep text rest

/-- One iteration of the for loop over the pieces in `_split_text`: a piece
shorter than the chunk size joins the pending good pieces; a long piece first
flushes the pending pieces through `_merge_splits`, then is either appended
as-is (no separators left) or split recursively. -/
def splitStep (cs co : Nat) (newSeps : List (List Char))
    (recurse : List Char → List (List Char))
    (acc : List (List Char) × List (List Char)) (s : List Char) :
    List (List Char) × List (List Char) :=
  if s.length < cs then (acc.1, acc.2 ++ [s])
  else
    let fin1 := if acc.2.isEmpty then acc.1 else acc.1 ++ mergeSplits cs co acc.2
    let fin2 := if newSeps.isEmpty then fin1 ++ [s] else fin1 ++ recurse s
    (fin2, [])

/-- `RecursiveCharacterTextSplitter._split_text`.  The recursion always
descends to a strict suffix of the separator list, so fuel equal to the
separator-list length is enough; fuel 0 is never reached from `splitText`. -/
def splitTextAux (cs co : Nat) : Nat → List Char → List (List Char) → List (List Char)
  | 0, _, _ => []
  | fuel + 1, text, seps =>
    let sn := chooseSep text seps
    let splits := splitWithSep text sn.1
    let r := splits.foldl
      (splitStep cs co sn.2 (fun t => splitTextAux cs co fuel t sn.2)) ([], [])
    if r.2.isEmpty then r.1 else r.1 ++ mergeSplits cs co r.2

/-- The default separator list of `RecursiveCharacterTextSplitter`:
`["\n\n", "\n", " ", ""]`. -/
def defaultSeparators : List (List Char) :=
  [['\n', '\n'], ['\n'], [' '], []]

/-- `RecursiveCharacterTextSplitter.split_text` for the engine's splitter
(`length_function=len`, default separators, `keep_separator=True`). -/
def splitText (cs co : Nat) (text : List Char) : List (List Char) :=
  splitTextAux cs co defaultSeparators.length text defaultSeparators

/-- A langchain `Document`: its text and its metadata. -/
structure Document where
  page_content : List Char
  metadata : List (String × String)
deriving DecidableEq

/-- The configuration the engine passes to `RecursiveCharacterTextSplitter`. -/
structure SplitterConfig where
  chunk_size : Nat
  chunk_overlap : Nat
deriving DecidableEq

/-- `TextSplitter.split_documents`: split each document's text and wrap every
chunk in a `Document` carrying the source document's metadata. -/
def splitDocuments (cfg : SplitterConfig) (docs : List Document) : List Document :=
  docs.flatMap fun d =>
    (splitText cfg.chunk_size cfg.chunk_overlap d.page_content).map
      fun c => { page_content := c, metadata := d.metadata }

/-- Python truthiness of an optional string (`None` and `""` are falsy). -/
def truthyStr : Option String → Bool
  | none => false
  | some s => !s.isEmpty

/-- Python `a or b` on optional strings. -/
def pyOrStr (a b : Option String) : Option String :=
  if truthyStr a then a else b

/-- Python `needle in hay` for a non-empty needle (substring containment). -/
def strContains (hay needle : String) : Bool :=
  containsSep hay.data needle.data

/-- Python `str.lower()` (ASCII range). -/
def asciiLower (s : String) : String :=
  String.mk (s.data.map Char.toLower)

/-- `pathlib.Path(path).name`: the last non-empty `/`-separated component. -/
def pathName (path : String) : List Char :=
  ((splitOnL ['/'] path.data).filter (fun s => !s.isEmpty)).getLastD []

/-- `pathlib.Path(path).suffix`: the final `.`-extension of the name; empty
when the name has no dot, when its only dot is leading, or when the dot is the
last character. -/
def pySuffix (path : String) : String :=
  let name := pathName path
  match name.reverse.findIdx? (fun c => c = '.') with
  | none => ""
  | some j =>
    let i := name.length - 1 - j
    if 0 < i ∧ 0 < j then String.mk (name.drop i) else ""

/-- The Python exception kinds the engine's code distinguishes. -/
inductive PyErr where
  | valueError (msg : String)
  | googleGenAIError (msg : String)
  | pineconeError (msg : String)
  | otherError (msg : String)
deriving DecidableEq

/-- The hosted Pinecone vector store as seen through `PineconeVectorStore`:
the stored (vector, chunk) pairs, the query embedder, the index's similarity
scoring (higher = closer), and the stats the underlying `_index` handle would
report (`none` models an unavailable handle). -/
structure VectorStore where
  entries : List (List ℚ × Document)
  embed : String → List ℚ
  similarity : List ℚ → List ℚ → ℚ
  index_stats : Option Nat

/-- The stored chunks scored against a query. -/
def scoreEntries (vs : VectorStore) (query : String) : List (Document × ℚ) :=
  vs.entries.map (fun e => (e.2, vs.similarity (vs.embed query) e.1))

/-- Descending score order on scored chunks. -/
def byScoreGe (a b : Document × ℚ) : Prop := b.2 ≤ a.2

instance : DecidableRel byScoreGe := fun a b => inferInstanceAs (Decidable (b.2 ≤ a.2))

instance : IsTotal (Document × ℚ) byScoreGe := ⟨fun a b => le_total b.2 a.2⟩

instance : IsTrans (Document × ℚ) byScoreGe := ⟨fun _ _ _ h1 h2 => le_trans h2 h1⟩

/-- `PineconeVectorStore.similarity_search_with_score`: the `k` best-scoring
stored chunks, with their scores, best first. -/
def similaritySearchWithScore (vs : VectorStore) (query : String) (k : Nat) :
    List (Document × ℚ) :=
  ((scoreEntries vs query).insertionSort byScoreGe).take k

/-- `PineconeVectorStore.similarity_search`: the same chunks without scores. -/
def similaritySearch (vs : VectorStore) (query : String) (k : Nat) : List Document :=
  (similaritySearchWithScore vs query k).map Prod.fst

/-- The `spec=ServerlessSpec(...)` argument of `Pinecone.create_index`. -/
structure ServerlessSpecArgs where
  cloud : String
  region : String
deriving DecidableEq

/-- The arguments `__init__` passes to `Pinecone.create_index`. -/
structure CreateIndexArgs where
  name : String
  dimension : Nat
  metric : String
  spec : ServerlessSpecArgs
deriving DecidableEq

/-- What Pinecone reports about an existing index. -/
structure IndexInfo where
  name : String
  dimension : Nat
  metric : String
deriving DecidableEq

/-- The externally observable actions of the engine: prints and SDK calls. -/
inductive Effect where
  | printed (msg : String)
  | embedQuery (text : String)
  | listIndexes
  | createIndex (args : CreateIndexArgs)
  | describeIndex (name : String)
  | deleteIndex (name : String)
  | fromDocuments (chunks : List Document) (index_name : String)
  | similaritySearchCall (query : String) (k : Nat)
  | similaritySearchWithScoreCall (query : String) (k : Nat)
  | describeIndexStats
  | dirLoaderLoad (path : String) (glob : String)
  | pdfLoaderLoad (path : String)
  | textLoaderLoad (path : String)
  | connectIndex (index_name : String)
deriving DecidableEq

/-- The fields of `SemanticSearchEngine` after construction (`self.embeddings`
is summarized by the model name it was built with; `self.pc` by nothing, it
only carries the API key). -/
structure EngineState where
  google_model_name : String
  index_name : String
  vector_store : Option VectorStore
  text_splitter : SplitterConfig

/-- The environment `__init__` runs against: the two environment variables,
the dimension the probe embedding of `"test"` comes back with, and the indexes
the Pinecone account already has. -/
structure InitEnv where
  google_env_key : Option String
  pinecone_env_key : Option String
  probe_dimension : Nat
  indexes : List IndexInfo

/-- `SemanticSearchEngine.__init__`: key resolution, the embedding-dimension
probe, then either `create_index` (metric "cosine", ServerlessSpec aws /
us-east-1) for a missing index or a dimension check against the existing one;
finally `vector_store = None` and the `RecursiveCharacterTextSplitter` with
`chunk_size=1000, chunk_overlap=200`. -/
def initEngine (google_model_name : String)
    (google_api_key pinecone_api_key : Option String)
    (pinecone_index_name : String) (env : InitEnv) :
    List Effect × Except PyErr EngineState :=
  let api_key := pyOrStr google_api_key env.google_env_key
  if !truthyStr api_key then
    ([], .error (.valueError "Set GOOGLE_API_KEY env var or pass google_api_key."))
  else
    let tr1 : List Effect :=
      [.printed "Testing embedding dimensions...", .embedQuery "test"]
    let actual_dimension := env.probe_dimension
    let expected_dimension :=
      if strContains google_model_name "gemini-embedding-001" then 3072
      else actual_dimension
    let embedding_dimension :=
      if actual_dimension ≠ expected_dimension then actual_dimension
      else expected_dimension
    let pc_key := pyOrStr pinecone_api_key env.pinecone_env_key
    if !truthyStr pc_key then
      (tr1, .error (.valueError "Set PINECONE_API_KEY env var or pass pinecone_api_key."))
    else
      let existing := env.indexes.map (fun i => i.name)
      let tr2 := tr1 ++ [Effect.listIndexes]
      if !existing.contains pinecone_index_name then
        let args : CreateIndexArgs :=
          { name := pinecone_index_name, dimension := embedding_dimension,
            metric := "cosine", spec := { cloud := "aws", region := "us-east-1" } }
        (tr2 ++ [.printed "Creating new Pinecone index...", .createIndex args,
            .printed "Created Pinecone index"],
          .ok { google_model_name := google_model_name,
                index_name := pinecone_index_name,
                vector_store := none,
                text_splitter := { chunk_size := 1000, chunk_overlap := 200 } })
      else
        let tr3 := tr2 ++ [Effect.printed "Found existing index",
          Effect.describeIndex pinecone_index_name]
        match env.indexes.find? (fun i => i.name == pinecone_index_name) with
        | none => (tr3, .error (.pineconeError "index not found"))
        | some info =>
          if info.dimension ≠ embedding_dimension then
            (tr3, .error (.valueError "DIMENSION MISMATCH"))
          else
            (tr3 ++ [.printed "Index dimensions match!"],
              .ok { google_model_name := google_model_name,
                    index_name := pinecone_index_name,
                    vector_store := none,
                    text_splitter := { chunk_size := 1000, chunk_overlap := 200 } })

/-- The results the document loaders would return for each path. -/
structure LoaderEnv where
  dirLoaderResult : String → List Document
  pdfLoaderResult : String → List Document
  textLoaderResult : String → List Document

/-- `SemanticSearchEngine.load_documents`. -/
def load_documents (file_path directory_path : Option String) (env : LoaderEnv) :
    List Effect × Except PyErr (List Document) :=
  if truthyStr directory_path then
    let d := directory_path.getD ""
    ([.dirLoaderLoad d "**/*.pdf"], .ok (env.dirLoaderResult d))
  else if truthyStr file_path then
    let f := file_path.getD ""
    let file_extension := asciiLower (pySuffix f)
    if file_extension == ".pdf" then
      ([.pdfLoaderLoad f], .ok (env.pdfLoaderResult f))
    else if file_extension == ".md" || file_extension == ".txt" then
      ([.textLoaderLoad f], .ok (env.textLoaderResult f))
    else
      ([], .error (.valueError ("Unsupported file type: " ++ file_extension)))
  else
    ([], .error (.valueError "Either file_path or directory_path must be provided"))

/-- The behaviour of `PineconeVectorStore.from_documents` (embed every chunk
and upsert the vectors): for each chunk list and index name, either the
resulting store or the exception the call raises. -/
structure BuildEnv where
  fromDocumentsResult : List Document → String → Except PyErr VectorStore

/-- `SemanticSearchEngine.build_index`: split, then one `from_documents` call;
on `GoogleGenerativeAIError` print a diagnostic and re-raise, on any other
exception propagate it; assign `self.vector_store` only on success. -/
def build_index (st : EngineState) (documents : List Document) (env : BuildEnv) :
    List Effect × EngineState × Except PyErr VectorStore :=
  let chunks := splitDocuments st.text_splitter documents
  let tr : List Effect :=
    [.printed "Split documents into chunks", .printed "Building vector store...",
      .fromDocuments chunks st.index_name]
  match env.fromDocumentsResult chunks st.index_name with
  | .ok vs =>
    (tr ++ [.printed "Pinecone index populated"],
      { st with vector_store := some vs }, .ok vs)
  | .error e =>
    match e with
    | .googleGenAIError msg =>
      let diag :=
        if strContains msg "429" || strContains (asciiLower msg) "quota" then
          "[Embedding Error] Google Gemini embedding quota exceeded."
        else
          "[Embedding Error] Unexpected Google Generative AI error:"
      (tr ++ [.printed diag], st, .error (.googleGenAIError msg))
    | _ => (tr, st, .error e)

/-- The store `PineconeVectorStore(index_name=..., embedding=...)` connects to. -/
structure ConnectEnv where
  connectResult : String → VectorStore

/-- `SemanticSearchEngine.load_index`. -/
def load_index (st : EngineState) (env : ConnectEnv) : List Effect × EngineState :=
  ([.connectIndex st.index_name, .printed "Connected to Pinecone index"],
    { st with vector_store := some (env.connectResult st.index_name) })

/-- `SemanticSearchEngine.search` (the Python default for `k` is 5). -/
def search (st : EngineState) (query : String) (k : Nat) :
    List Effect × EngineState × Except PyErr (List Document) :=
  match st.vector_store with
  | none =>
    ([], st, .error (.valueError "Vector store not initialized. Build or load an index first."))
  | some vs =>
    ([.similaritySearchCall query k], st, .ok (similaritySearch vs query k))

/-- `SemanticSearchEngine.search_with_scores` (the Python default for `k` is 5). -/
def search_with_scores (st : EngineState) (query : String) (k : Nat) :
    List Effect × EngineState × Except PyErr (List (Document × ℚ)) :=
  match st.vector_store with
  | none =>
    ([], st, .error (.valueError "Vector store not initialized. Build or load an index first."))
  | some vs =>
    ([.similaritySearchWithScoreCall query k], st,
      .ok (similaritySearchWithScore vs query k))

/-- What `get_collection_info` returns. -/
inductive CollectionInfo where
  | handleUnavailable (index_name : String)
  | stats (index_name : String) (total_vector_count : Nat)
deriving DecidableEq

/-- `SemanticSearchEngine.get_collection_info`. -/
def get_collection_info (st : EngineState) :
    List Effect × EngineState × Except PyErr CollectionInfo :=
  match st.vector_store with
  | none => ([], st, .error (.valueError "Vector store not initialized."))
  | some vs =>
    match vs.index_stats with
    | none => ([], st, .ok (.handleUnavailable st.index_name))
    | some n => ([.describeIndexStats], st, .ok (.stats st.index_name n))

/-! ### Concrete instances used to evaluate the model at specific inputs -/

/-- A short sample document. -/
def docHello : Document := { page_content := "hello".data, metadata := [] }

/-- A document of two long words: 501 `x`s, a space, 501 `y`s. -/
def docTwoWords : Document :=
  { page_content := List.replicate 501 'x' ++ ' ' :: List.replicate 501 'y',
    metadata := [] }

/-- Sample chunk. -/
def docA : Document := { page_content := "alpha".data, metadata := [] }

/-- Sample chunk. -/
def docB : Document := { page_content := "beta".data, metadata := [] }

/-- A two-entry vector store. -/
def vsSample : VectorStore :=
  { entries := [([1], docA), ([0], docB)],
    embed := fun _ => [1],
    similarity := fun q v => (List.zipWith (fun a b => a * b) q v).sum,
    index_stats := some 2 }

/-- An engine whose store is loaded. -/
def stSample : EngineState :=
  { google_model_name := "gemini-embedding-001", index_name := "semantic-search",
    vector_store := some vsSample,
    text_splitter := { chunk_size := 1000, chunk_overlap := 200 } }

/-- An engine before `build_index` / `load_index`. -/
def stEmpty : EngineState :=
  { google_model_name := "gemini-embedding-001", index_name := "semantic-search",
    vector_store := none,
    text_splitter := { chunk_size := 1000, chunk_overlap := 200 } }

/-- An account with no index yet. -/
def envCreate : InitEnv :=
  { google_env_key := some "g", pinecone_env_key := some "p",
    probe_dimension := 3072, indexes := [] }

/-- An account whose index exists with the right dimension but a non-cosine
metric. -/
def envEuclid : InitEnv :=
  { google_env_key := some "g", pinecone_env_key := some "p",
    probe_dimension := 3072,
    indexes := [{ name := "semantic-search", dimension := 3072, metric := "euclidean" }] }

/-- An account whose index exists with a different dimension. -/
def envMismatch : InitEnv :=
  { google_env_key := some "g", pinecone_env_key := some "p",
    probe_dimension := 3072,
    indexes := [{ name := "semantic-search", dimension := 768, metric := "cosine" }] }

/-- Loaders that return fixed documents. -/
def loaderSample : LoaderEnv :=
  { dirLoaderResult := fun _ => [docA], pdfLoaderResult := fun _ => [docA],
    textLoaderResult := fun _ => [docB] }

/-- A `from_documents` that succeeds. -/
def buildOk : BuildEnv := { fromDocumentsResult := fun _ _ => .ok vsSample }

/-- A `from_documents` that raises a quota `GoogleGenerativeAIError`. -/
def buildErr : BuildEnv :=
  { fromDocumentsResult := fun _ _ => .error (.googleGenAIError "429 quota") }

/-! ### Lemmas: the split primitives reconstruct the text -/

theorem splitFirstAux_spec (sep : List Char) :
    ∀ text acc b a, splitFirstAux sep acc text = some (b, a) →
      acc.reverse ++ text = b ++ sep ++ a := by
  intro text
  induction text with
  | nil => intro acc b a h; simp [splitFirstAux] at h
  | cons c cs ih =>
    intro acc b a h
    rw [splitFirstAux] at h
    split at h
    case isTrue hp =>
      obtain ⟨t, ht⟩ := List.isPrefixOf_iff_prefix.mp hp
      simp only [Option.some.injEq, Prod.mk.injEq] at h
      obtain ⟨hb, ha⟩ := h
      subst hb
      rw [← ht, List.drop_left] at ha
      subst ha
      rw [← ht]
      simp [List.append_assoc]
    case isFalse =>
      have h2 := ih (c :: acc) b a h
      simpa [List.append_assoc] using h2

theorem splitFirst_spec (sep text b a : List Char)
    (h : splitFirst sep text = some (b, a)) : text = b ++ sep ++ a := by
  simpa using splitFirstAux_spec sep text [] b a h

theorem splitOnAux_ne_nil (sep : List Char) (fuel : Nat) (text : List Char) :
    splitOnAux sep fuel text ≠ [] := by
  cases fuel with
  | zero => simp [splitOnAux]
  | succ n =>
    rw [splitOnAux]
    cases h : splitFirst sep text with
    | none => simp
    | some p => cases p; simp

theorem interS_splitOnAux (sep : List Char) :
    ∀ fuel text, interS sep (splitOnAux sep fuel text) = text := by
  intro fuel
  induction fuel with
  | zero => intro text; simp [splitOnAux, interS]
  | succ n ih =>
    intro text
    rw [splitOnAux]
    cases h : splitFirst sep text with
    | none => simp [interS]
    | some p =>
      obtain ⟨b, a⟩ := p
      have hrec := splitOnAux_ne_nil sep n a
      have hspec := splitFirst_spec sep text b a h
      show interS sep (b :: splitOnAux sep n a) = text
      cases hq : splitOnAux sep n a with
      | nil => exact absurd hq hrec
      | cons q r =>
        have hstep : interS sep (b :: q :: r) = b ++ sep ++ interS sep (q :: r) := rfl
        rw [hstep, ← hq, ih a, hspec]

theorem interS_splitOnL (sep text : List Char) :
    interS sep (splitOnL sep text) = text :=
  interS_splitOnAux sep text.length text

theorem flatten_cons_map (sep : List Char) :
    ∀ ps p, (p :: ps.map (fun q => sep ++ q)).flatten = interS sep (p :: ps) := by
  intro ps
  induction ps with
  | nil => intro p; simp [interS]
  | cons q r ih =>
    intro p
    have h2 := ih q
    simp only [List.map_cons, List.flatten_cons] at h2 ⊢
    rw [show interS sep (p :: q :: r) = p ++ sep ++ interS sep (q :: r) from rfl, ← h2]
    simp [List.append_assoc]

theorem flatten_filter_isEmpty (L : List (List Char)) :
    (L.filter (fun s => !s.isEmpty)).flatten = L.flatten := by
  induction L with
  | nil => rfl
  | cons x xs ih =>
    cases x with
    | nil => simpa [List.filter_cons] using ih
    | cons c cs => simp [List.filter_cons, ih]

theorem flatten_map_singleton (text : List Char) :
    (text.map (fun c => [c])).flatten = text := by
  induction text with
  | nil => rfl
  | cons c cs ih => simp [ih]

theorem flatten_splitWithSep (text sep : List Char) :
    (splitWithSep text sep).flatten = text := by
  rw [splitWithSep]
  split
  case isTrue => exact flatten_map_singleton text
  case isFalse h =>
    cases hq : splitOnL sep text with
    | nil => exact absurd hq (splitOnAux_ne_nil sep text.length text)
    | cons p ps =>
      rw [flatten_filter_isEmpty, flatten_cons_map, ← hq, interS_splitOnL]

/-! ### Lemmas: stripping yields a shorter, contiguous part -/

theorem stripL_prefix_dropWhile (l : List Char) :
    stripL l <+: l.dropWhile isPyWs := by
  rw [stripL]
  have h : (l.dropWhile isPyWs).reverse.dropWhile isPyWs <:+ (l.dropWhile isPyWs).reverse :=
    List.dropWhile_suffix isPyWs
  rw [← List.reverse_reverse (List.dropWhile isPyWs (l.dropWhile isPyWs).reverse)]
    at h
  exact List.reverse_suffix.mp h

theorem stripL_contig (l : List Char) : stripL l <:+: l :=
  ((stripL_prefix_dropWhile l).isInfix).trans
    ((List.dropWhile_suffix isPyWs).isInfix)

theorem stripL_length_le (l : List Char) : (stripL l).length ≤ l.length :=
  (stripL_contig l).length_le

/-- Total character length of a list of pieces. -/
def sumLen (L : List (List Char)) : Nat :=
  (L.map List.length).sum

theorem sumLen_append (L M : List (List Char)) :
    sumLen (L ++ M) = sumLen L + sumLen M := by
  simp [sumLen]

theorem sumLen_flatten (L : List (List Char)) : L.flatten.length = sumLen L :=
  List.length_flatten L

theorem flatten_infix_mono {L M : List (List Char)} (h : L <:+: M) :
    L.flatten <:+: M.flatten := by
  obtain ⟨a, b, hab⟩ := h
  exact ⟨a.flatten, b.flatten, by rw [← List.flatten_append, ← List.flatten_append, hab]⟩

/-! ### Lemmas: the merge loop keeps chunks short and contiguous -/

theorem emitDoc_eq (docs cur : List (List Char)) :
    emitDoc docs cur =
      if (stripL cur.flatten).isEmpty then docs else docs ++ [stripL cur.flatten] := by
  rw [emitDoc, joinDocs]
  by_cases h : (stripL cur.flatten).isEmpty <;> simp [h]

theorem mem_emitDoc {docs cur : List (List Char)} {t : List Char}
    (ht : t ∈ emitDoc docs cur) : t ∈ docs ∨ t = stripL cur.flatten := by
  rw [emitDoc_eq] at ht
  by_cases h : (stripL cur.flatten).isEmpty
  · rw [if_pos h] at ht; exact Or.inl ht
  · rw [if_neg h] at ht
    rcases List.mem_append.mp ht with h2 | h2
    · exact Or.inl h2
    · exact Or.inr (List.mem_singleton.mp h2)

theorem shrink_suffix (cs co dlen : Nat) :
    ∀ cur tot, (shrink cs co dlen cur tot).1 <:+ cur := by
  intro cur
  induction cur with
  | nil => intro tot; simp [shrink]
  | cons x xs ih =>
    intro tot
    rw [shrink]
    split
    case isTrue => exact (ih _).trans (List.suffix_cons x xs)
    case isFalse => simp

theorem shrink_spec (cs co dlen : Nat) :
    ∀ cur tot, tot = sumLen cur →
      (shrink cs co dlen cur tot).2 = sumLen (shrink cs co dlen cur tot).1 ∧
      ((shrink cs co dlen cur tot).2 + dlen ≤ cs ∨ (shrink cs co dlen cur tot).2 = 0) := by
  intro cur
  induction cur with
  | nil =>
    intro tot ht
    refine ⟨by simpa [shrink] using ht, Or.inr ?_⟩
    simpa [shrink, sumLen] using ht
  | cons x xs ih =>
    intro tot ht
    rw [shrink]
    split
    case isTrue hc =>
      apply ih
      rw [ht]
      simp [sumLen]
    case isFalse hc =>
      push_neg at hc
      refine ⟨by simpa using ht, ?_⟩
      rcases Nat.lt_or_ge cs (tot + dlen) with h | h
      · exact Or.inr (Nat.le_zero.mp (hc.2 h))
      · exact Or.inl h

/-- Invariant of the merge loop: the retained total is the length of the
retained window and never exceeds the chunk size, and every emitted chunk fits
the chunk size. -/
structure MergeInv (cs : Nat) (acc : MergeAcc) : Prop where
  sum_eq : acc.total = sumLen acc.cur
  total_le : acc.total ≤ cs
  docs_le : ∀ t ∈ acc.docs, t.length ≤ cs

theorem emitDoc_le {cs : Nat} {docs cur : List (List Char)}
    (hd : ∀ t ∈ docs, t.length ≤ cs) (hc : sumLen cur ≤ cs) :
    ∀ t ∈ emitDoc docs cur, t.length ≤ cs := by
  intro t ht
  rcases mem_emitDoc ht with h | h
  · exact hd t h
  · subst h
    calc (stripL cur.flatten).length ≤ cur.flatten.length := stripL_length_le _
    _ = sumLen cur := sumLen_flatten cur
    _ ≤ cs := hc

theorem mergeStep_inv {cs co : Nat} {acc : MergeAcc} {d : List Char}
    (hinv : MergeInv cs acc) (hd : d.length < cs) :
    MergeInv cs (mergeStep cs co acc d) := by
  by_cases h1 : cs < acc.total + d.length
  · by_cases h2 : acc.cur.isEmpty
    · have hc0 : acc.cur = [] := List.isEmpty_iff.mp h2
      have ht0 : acc.total = 0 := by rw [hinv.sum_eq, hc0]; rfl
      refine ⟨?_, ?_, ?_⟩ <;> simp only [mergeStep, if_pos h1, if_pos h2]
      · rw [hinv.sum_eq, sumLen_append]; rfl
      · rw [ht0, Nat.zero_add]; exact Nat.le_of_lt hd
      · exact hinv.docs_le
    · have hsp := shrink_spec cs co d.length acc.cur acc.total hinv.sum_eq
      refine ⟨?_, ?_, ?_⟩ <;> simp only [mergeStep, if_pos h1, if_neg h2]
      · rw [hsp.1, sumLen_append]; rfl
      · rcases hsp.2 with h | h
        · exact h
        · rw [h, Nat.zero_add]; exact Nat.le_of_lt hd
      · exact emitDoc_le hinv.docs_le (hinv.sum_eq ▸ hinv.total_le)
  · refine ⟨?_, ?_, ?_⟩ <;> simp only [mergeStep, if_neg h1]
    · rw [hinv.sum_eq, sumLen_append]; rfl
    · exact Nat.le_of_not_lt h1
    · exact hinv.docs_le

theorem mergeFold_inv {cs co : Nat} :
    ∀ (splits : List (List Char)) (acc : MergeAcc),
      MergeInv cs acc → (∀ d ∈ splits, d.length < cs) →
      MergeInv cs (splits.foldl (mergeStep cs co) acc) := by
  intro splits
  induction splits with
  | nil => intro acc h _; exact h
  | cons d ds ih =>
    intro acc h hall
    rw [List.foldl_cons]
    exact ih _ (mergeStep_inv h (hall d (by simp))) (fun x hx => hall x (by simp [hx]))

theorem mergeSplits_length_le {cs co : Nat} {splits : List (List Char)}
    (hall : ∀ d ∈ splits, d.length < cs) :
    ∀ t ∈ mergeSplits cs co splits, t.length ≤ cs := by
  intro t ht
  rw [mergeSplits] at ht
  have hinv : MergeInv cs (splits.foldl (mergeStep cs co) ⟨[], [], 0⟩) :=
    mergeFold_inv splits ⟨[], [], 0⟩ ⟨rfl, Nat.zero_le cs, by simp⟩ hall
  exact emitDoc_le hinv.docs_le (hinv.sum_eq ▸ hinv.total_le) t ht

theorem suffix_append_single {l m : List (List Char)} (h : l <:+ m) (d : List Char) :
    l ++ [d] <:+ m ++ [d] := by
  obtain ⟨u, hu⟩ := h
  exact ⟨u, by rw [← hu, List.append_assoc]⟩

theorem mergeStep_shape (cs co : Nat) (acc : MergeAcc) (d : List Char) :
    ∃ pre, pre <:+ acc.cur ∧ (mergeStep cs co acc d).cur = pre ++ [d] ∧
      ((mergeStep cs co acc d).docs = acc.docs ∨
        (mergeStep cs co acc d).docs = emitDoc acc.docs acc.cur) := by
  by_cases h1 : cs < acc.total + d.length
  · by_cases h2 : acc.cur.isEmpty
    · exact ⟨acc.cur, List.suffix_refl _, by simp only [mergeStep, if_pos h1, if_pos h2],
        Or.inl (by simp only [mergeStep, if_pos h1, if_pos h2])⟩
    · exact ⟨(shrink cs co d.length acc.cur acc.total).1, shrink_suffix cs co d.length _ _,
        by simp only [mergeStep, if_pos h1, if_neg h2],
        Or.inr (by simp only [mergeStep, if_pos h1, if_neg h2])⟩
  · exact ⟨acc.cur, List.suffix_refl _, by simp only [mergeStep, if_neg h1],
      Or.inl (by simp only [mergeStep, if_neg h1])⟩

theorem mergeFold_contig {cs co : Nat} {S : List (List Char)} :
    ∀ rest done acc, done ++ rest = S → acc.cur <:+ done →
      (∀ t ∈ acc.docs, t <:+: S.flatten) →
      (rest.foldl (mergeStep cs co) acc).cur <:+ S ∧
      ∀ t ∈ (rest.foldl (mergeStep cs co) acc).docs, t <:+: S.flatten := by
  intro rest
  induction rest with
  | nil =>
    intro done acc hS hcur hdocs
    rw [List.foldl_nil]
    rw [List.append_nil] at hS
    exact ⟨hS ▸ hcur, hdocs⟩
  | cons d ds ih =>
    intro done acc hS hcur hdocs
    rw [List.foldl_cons]
    obtain ⟨pre, hpre, hcur2, hdocs2⟩ := mergeStep_shape cs co acc d
    apply ih (done ++ [d])
    · rw [← hS, List.append_assoc]; rfl
    · rw [hcur2]; exact suffix_append_single (hpre.trans hcur) d
    · intro t ht
      rcases hdocs2 with he | he
      · rw [he] at ht; exact hdocs t ht
      · rw [he] at ht
        rcases mem_emitDoc ht with h | h
        · exact hdocs t h
        · subst h
          have hdonePre : done <+: S := ⟨d :: ds, hS⟩
          have hin : acc.cur <:+: S := hcur.isInfix.trans hdonePre.isInfix
          exact (stripL_contig _).trans (flatten_infix_mono hin)

theorem mergeSplits_contig {cs co : Nat} {splits : List (List Char)} :
    ∀ t ∈ mergeSplits cs co splits, t <:+: splits.flatten := by
  intro t ht
  rw [mergeSplits] at ht
  have h := @mergeFold_contig cs co splits splits [] (⟨[], [], 0⟩ : MergeAcc)
    (List.nil_append splits) (List.suffix_refl []) (by simp)
  rcases mem_emitDoc ht with h2 | h2
  · exact h.2 t h2
  · subst h2
    exact (stripL_contig _).trans (flatten_infix_mono h.1.isInfix)

/-! ### Lemmas: the recursive splitter -/

theorem splitStep_snd (cs co : Nat) (newSeps : List (List Char))
    (recurse : List Char → List (List Char)) (acc : List (List Char) × List (List Char))
    (s : List Char) :
    (splitStep cs co newSeps recurse acc s).2 =
      if s.length < cs then acc.2 ++ [s] else [] := by
  by_cases hlen : s.length < cs <;> simp [splitStep, hlen]

theorem splitStep_fst (cs co : Nat) (newSeps : List (List Char))
    (recurse : List Char → List (List Char)) (acc : List (List Char) × List (List Char))
    (s : List Char) :
    (splitStep cs co newSeps recurse acc s).1 =
      if s.length < cs then acc.1
      else (if acc.2.isEmpty then acc.1 else acc.1 ++ mergeSplits cs co acc.2) ++
        (if newSeps.isEmpty then [s] else recurse s) := by
  by_cases hlen : s.length < cs
  · simp [splitStep, hlen]
  · by_cases he : acc.2.isEmpty <;> by_cases hn : newSeps.isEmpty <;>
      simp [splitStep, hlen, he, hn]

theorem chooseSep_empty_mem (text : List Char) :
    ∀ seps, [] ∈ seps →
      ((chooseSep text seps).1 = [] ∧ (chooseSep text seps).2 = []) ∨
      ((chooseSep text seps).1 ≠ [] ∧ [] ∈ (chooseSep text seps).2) := by
  intro seps
  induction seps with
  | nil => intro h; simp at h
  | cons s rest ih =>
    intro h
    by_cases hs : s.isEmpty
    · left
      constructor <;> simp [chooseSep, hs]
    · have hsne : s ≠ [] := fun he => by simp [he] at hs
      have hmem : [] ∈ rest := by
        rcases List.mem_cons.mp h with h1 | h1
        · exact absurd h1.symm hsne
        · exact h1
      by_cases hc : containsSep text s
      · right
        constructor <;> simp [chooseSep, hs, hc, hsne, hmem]
      · cases rest with
        | nil => simp at hmem
        | cons r rs =>
          have hred : chooseSep text (s :: r :: rs) = chooseSep text (r :: rs) := by
            simp [chooseSep, hs, hc]
          rw [hred]
          exact ih hmem

theorem splitWithSep_nil_sep (text : List Char) :
    ∀ s ∈ splitWithSep text [], s.length = 1 := by
  intro s hs
  rw [splitWithSep] at hs
  simp only [List.isEmpty_nil, if_true] at hs
  obtain ⟨c, _, rfl⟩ := List.mem_map.mp hs
  rfl

theorem splitFold_length {cs co : Nat} {newSeps : List (List Char)}
    {recurse : List Char → List (List Char)} {S : List (List Char)}
    (hdir : ∀ s ∈ S, cs ≤ s.length → newSeps.isEmpty = true → s.length ≤ cs)
    (hrec : ∀ s ∈ S, cs ≤ s.length → newSeps.isEmpty = false →
      ∀ t ∈ recurse s, t.length ≤ cs) :
    ∀ (rest : List (List Char)) (acc : List (List Char) × List (List Char)),
      (∀ s ∈ rest, s ∈ S) →
      (∀ t ∈ acc.1, t.length ≤ cs) → (∀ g ∈ acc.2, g.length < cs) →
      (∀ t ∈ (rest.foldl (splitStep cs co newSeps recurse) acc).1, t.length ≤ cs) ∧
      (∀ g ∈ (rest.foldl (splitStep cs co newSeps recurse) acc).2, g.length < cs) := by
  intro rest
  induction rest with
  | nil => intro acc _ h1 h2; exact ⟨h1, h2⟩
  | cons s ss ih =>
    intro acc hmem h1 h2
    rw [List.foldl_cons]
    have hsS : s ∈ S := hmem s (by simp)
    apply ih
    · intro x hx; exact hmem x (by simp [hx])
    · rw [splitStep_fst]
      by_cases hlen : s.length < cs
      · rw [if_pos hlen]; exact h1
      · rw [if_neg hlen]
        intro t ht
        rcases List.mem_append.mp ht with h | h
        · by_cases he : acc.2.isEmpty
          · rw [if_pos he] at h; exact h1 t h
          · rw [if_neg he] at h
            rcases List.mem_append.mp h with h3 | h3
            · exact h1 t h3
            · exact mergeSplits_length_le h2 t h3
        · by_cases hn : newSeps.isEmpty
          · rw [if_pos hn] at h
            rw [List.mem_singleton.mp h]
            exact hdir s hsS (Nat.le_of_not_lt hlen) hn
          · rw [if_neg hn] at h
            exact hrec s hsS (Nat.le_of_not_lt hlen) (by simpa using hn) t h
    · rw [splitStep_snd]
      by_cases hlen : s.length < cs
      · rw [if_pos hlen]
        intro g hg
        rcases List.mem_append.mp hg with h | h
        · exact h2 g h
        · rw [List.mem_singleton.mp h]; exact hlen
      · rw [if_neg hlen]; simp

theorem splitFold_contig {cs co : Nat} {newSeps : List (List Char)}
    {recurse : List Char → List (List Char)} {S : List (List Char)}
    (hrec : ∀ s ∈ S, ∀ t ∈ recurse s, t <:+: s) :
    ∀ (rest done : List (List Char)) (acc : List (List Char) × List (List Char)),
      done ++ rest = S → acc.2 <:+ done → (∀ t ∈ acc.1, t <:+: S.flatten) →
      ((rest.foldl (splitStep cs co newSeps recurse) acc).2 <:+ S ∧
        ∀ t ∈ (rest.foldl (splitStep cs co newSeps recurse) acc).1, t <:+: S.flatten) := by
  intro rest
  induction rest with
  | nil =>
    intro done acc hS hg h1
    rw [List.foldl_nil]
    rw [List.append_nil] at hS
    exact ⟨hS ▸ hg, h1⟩
  | cons s ss ih =>
    intro done acc hS hg h1
    rw [List.foldl_cons]
    have hsS : s ∈ S := by rw [← hS]; simp
    have hdonePre : done <+: S := ⟨s :: ss, hS⟩
    have hgood : acc.2 <:+: S := hg.isInfix.trans hdonePre.isInfix
    apply ih (done ++ [s])
    · rw [← hS, List.append_assoc]; rfl
    · rw [splitStep_snd]
      by_cases hlen : s.length < cs
      · rw [if_pos hlen]; exact suffix_append_single hg s
      · rw [if_neg hlen]; exact List.nil_suffix
    · rw [splitStep_fst]
      by_cases hlen : s.length < cs
      · rw [if_pos hlen]; exact h1
      · rw [if_neg hlen]
        intro t ht
        rcases List.mem_append.mp ht with h | h
        · by_cases he : acc.2.isEmpty
          · rw [if_pos he] at h; exact h1 t h
          · rw [if_neg he] at h
            rcases List.mem_append.mp h with h3 | h3
            · exact h1 t h3
            · exact (mergeSplits_contig t h3).trans (flatten_infix_mono hgood)
        · have hsT : s <:+: S.flatten := List.infix_of_mem_flatten hsS
          by_cases hn : newSeps.isEmpty
          · rw [if_pos hn] at h
            rw [List.mem_singleton.mp h]
            exact hsT
          · rw [if_neg hn] at h
            exact (hrec s hsS t h).trans hsT

theorem splitTextAux_succ (cs co n : Nat) (text : List Char) (seps : List (List Char)) :
    splitTextAux cs co (n + 1) text seps =
      if ((splitWithSep text (chooseSep text seps).1).foldl
            (splitStep cs co (chooseSep text seps).2
              (fun t => splitTextAux cs co n t (chooseSep text seps).2)) ([], [])).2.isEmpty
      then ((splitWithSep text (chooseSep text seps).1).foldl
            (splitStep cs co (chooseSep text seps).2
              (fun t => splitTextAux cs co n t (chooseSep text seps).2)) ([], [])).1
      else ((splitWithSep text (chooseSep text seps).1).foldl
            (splitStep cs co (chooseSep text seps).2
              (fun t => splitTextAux cs co n t (chooseSep text seps).2)) ([], [])).1 ++
        mergeSplits cs co
          ((splitWithSep text (chooseSep text seps).1).foldl
            (splitStep cs co (chooseSep text seps).2
              (fun t => splitTextAux cs co n t (chooseSep text seps).2)) ([], [])).2 :=
  rfl

/-- Every chunk `_split_text` produces occurs contiguously in the input text. -/
theorem splitTextAux_contig {cs co : Nat} :
    ∀ (fuel : Nat) (text : List Char) (seps : List (List Char)),
      ∀ t ∈ splitTextAux cs co fuel text seps, t <:+: text := by
  intro fuel
  induction fuel with
  | zero => intro text seps t ht; simp [splitTextAux] at ht
  | succ n ih =>
    intro text seps t ht
    rw [splitTextAux_succ] at ht
    set F := (splitWithSep text (chooseSep text seps).1).foldl
      (splitStep cs co (chooseSep text seps).2
        (fun u => splitTextAux cs co n u (chooseSep text seps).2)) ([], []) with hF
    have hflat : (splitWithSep text (chooseSep text seps).1).flatten = text :=
      flatten_splitWithSep text (chooseSep text seps).1
    have hfold := @splitFold_contig cs co (chooseSep text seps).2
      (fun u => splitTextAux cs co n u (chooseSep text seps).2)
      (splitWithSep text (chooseSep text seps).1)
      (fun s _ u hu => ih s (chooseSep text seps).2 u hu)
      (splitWithSep text (chooseSep text seps).1) [] ([], [])
      (List.nil_append _) List.nil_suffix (by simp)
    rw [← hF] at hfold
    by_cases hc : F.2.isEmpty
    · rw [if_pos hc] at ht
      exact hflat ▸ hfold.2 t ht
    · rw [if_neg hc] at ht
      rcases List.mem_append.mp ht with h | h
      · exact hflat ▸ hfold.2 t h
      · exact hflat ▸ (mergeSplits_contig t h).trans (flatten_infix_mono hfold.1.isInfix)

/-- With the empty separator among the separators and a positive chunk size,
every chunk `_split_text` produces has at most `cs` characters. -/
theorem splitTextAux_length_le {cs co : Nat} (hcs : 1 ≤ cs) :
    ∀ (fuel : Nat) (text : List Char) (seps : List (List Char)), [] ∈ seps →
      ∀ t ∈ splitTextAux cs co fuel text seps, t.length ≤ cs := by
  intro fuel
  induction fuel with
  | zero => intro text seps _ t ht; simp [splitTextAux] at ht
  | succ n ih =>
    intro text seps hsep t ht
    rw [splitTextAux_succ] at ht
    set F := (splitWithSep text (chooseSep text seps).1).foldl
      (splitStep cs co (chooseSep text seps).2
        (fun u => splitTextAux cs co n u (chooseSep text seps).2)) ([], []) with hF
    have hfold : (∀ u ∈ F.1, u.length ≤ cs) ∧ ∀ g ∈ F.2, g.length < cs := by
      rw [hF]
      rcases chooseSep_empty_mem text seps hsep with ⟨hs1, hs2⟩ | ⟨hs1, hs2⟩
      · refine splitFold_length ?_ ?_ _ ([], []) (fun s hs => hs) (by simp) (by simp)
        · intro s hs _ _
          rw [hs1] at hs
          rw [splitWithSep_nil_sep text s hs]
          exact hcs
        · intro s _ _ hn
          rw [hs2] at hn
          simp at hn
      · refine splitFold_length ?_ ?_ _ ([], []) (fun s hs => hs) (by simp) (by simp)
        · intro s _ _ hn
          rcases List.isEmpty_iff.mp hn ▸ hs2
        · intro s _ _ _ u hu
          exact ih s (chooseSep text seps).2 hs2 u hu
    by_cases hc : F.2.isEmpty
    · rw [if_pos hc] at ht
      exact hfold.1 t ht
    · rw [if_neg hc] at ht
      rcases List.mem_append.mp ht with h | h
      · exact hfold.1 t h
      · exact mergeSplits_length_le hfold.2 t h

theorem splitText_contig (cs co : Nat) (text : List Char) :
    ∀ t ∈ splitText cs co text, t <:+: text :=
  splitTextAux_contig defaultSeparators.length text defaultSeparators

theorem splitText_length_le {cs co : Nat} (hcs : 1 ≤ cs) (text : List Char) :
    ∀ t ∈ splitText cs co text, t.length ≤ cs :=
  splitTextAux_length_le hcs defaultSeparators.length text defaultSeparators
    (by simp [defaultSeparators])

theorem mem_splitDocuments {cfg : SplitterConfig} {docs : List Document} {chunk : Document}
    (h : chunk ∈ splitDocuments cfg docs) :
    ∃ src ∈ docs, chunk.metadata = src.metadata ∧
      chunk.page_content ∈ splitText cfg.chunk_size cfg.chunk_overlap src.page_content := by
  rw [splitDocuments] at h
  obtain ⟨src, hsrc, hmem⟩ := List.mem_flatMap.mp h
  obtain ⟨c, hc, hchunk⟩ := List.mem_map.mp hmem
  exact ⟨src, hsrc, by rw [← hchunk], by rw [← hchunk]; exact hc⟩

/-! ### Lemmas: `__init__` -/

theorem ifNeSelf (a e : Nat) : (if a ≠ e then a else e) = a := by
  by_cases h : a = e
  · simp [h]
  · simp [h]

/-- Branch-by-branch characterization of `initEngine`: the embedding dimension
passed on is always the probed one. -/
theorem initEngine_eq (gm : String) (gk pk : Option String) (iname : String)
    (env : InitEnv) :
    initEngine gm gk pk iname env =
      if !truthyStr (pyOrStr gk env.google_env_key) then
        ([], .error (.valueError "Set GOOGLE_API_KEY env var or pass google_api_key."))
      else if !truthyStr (pyOrStr pk env.pinecone_env_key) then
        ([.printed "Testing embedding dimensions...", .embedQuery "test"],
          .error (.valueError "Set PINECONE_API_KEY env var or pass pinecone_api_key."))
      else if !(env.indexes.map (fun i => i.name)).contains iname then
        ([.printed "Testing embedding dimensions...", .embedQuery "test", .listIndexes,
            .printed "Creating new Pinecone index...",
            .createIndex { name := iname, dimension := env.probe_dimension,
                           metric := "cosine",
                           spec := { cloud := "aws", region := "us-east-1" } },
            .printed "Created Pinecone index"],
          .ok { google_model_name := gm, index_name := iname, vector_store := none,
                text_splitter := { chunk_size := 1000, chunk_overlap := 200 } })
      else
        match env.indexes.find? (fun i => i.name == iname) with
        | none =>
          ([.printed "Testing embedding dimensions...", .embedQuery "test", .listIndexes,
              .printed "Found existing index", .describeIndex iname],
            .error (.pineconeError "index not found"))
        | some info =>
          if info.dimension ≠ env.probe_dimension then
            ([.printed "Testing embedding dimensions...", .embedQuery "test", .listIndexes,
                .printed "Found existing index", .describeIndex iname],
              .error (.valueError "DIMENSION MISMATCH"))
          else
            ([.printed "Testing embedding dimensions...", .embedQuery "test", .listIndexes,
                .printed "Found existing index", .describeIndex iname,
                .printed "Index dimensions match!"],
              .ok { google_model_name := gm, index_name := iname, vector_store := none,
                    text_splitter := { chunk_size := 1000, chunk_overlap := 200 } }) := by
  rw [initEngine]
  by_cases h1 : truthyStr (pyOrStr gk env.google_env_key)
  · by_cases h2 : truthyStr (pyOrStr pk env.pinecone_env_key)
    · by_cases h3 : (env.indexes.map (fun i => i.name)).contains iname
      · simp only [h1, h2, h3, Bool.not_true, if_false, ifNeSelf]
        cases env.indexes.find? (fun i => i.name == iname) with
        | none => rfl
        | some info =>
          by_cases h4 : info.dimension = env.probe_dimension
          · simp only [h4, ne_eq, not_true_eq_false, if_false]; rfl
          · simp only [h4, ne_eq, not_false_eq_true, if_true]; rfl
      · simp only [h1, h2, h3, Bool.not_true, Bool.not_false, if_false, if_true, ifNeSelf]
        rfl
    · simp only [h1, h2, Bool.not_true, Bool.not_false, if_false, if_true]
  · simp only [h1, Bool.not_false, if_true]

/-- A successful `__init__` always yields the same state: the given names, no
vector store, and the 1000/200 splitter. -/
theorem initEngine_ok_state {gm : String} {gk pk : Option String} {iname : String}
    {env : InitEnv} {tr : List Effect} {st : EngineState}
    (h : initEngine gm gk pk iname env = (tr, .ok st)) :
    st = { google_model_name := gm, index_name := iname, vector_store := none,
           text_splitter := { chunk_size := 1000, chunk_overlap := 200 } } := by
  rw [initEngine_eq] at h
  split at h
  · injection h with h1 h2; simp at h2
  · split at h
    · injection h with h1 h2; simp at h2
    · split at h
      · injection h with h1 h2
        injection h2 with h3
        exact h3.symm
      · split at h
        · injection h with h1 h2; simp at h2
        · split at h
          · injection h with h1 h2; simp at h2
          · injection h with h1 h2
            injection h2 with h3
            exact h3.symm

theorem contains_of_find {l : List IndexInfo} {iname : String} {info : IndexInfo}
    (h : l.find? (fun i => i.name == iname) = some info) :
    (l.map (fun i => i.name)).contains iname = true := by
  have hmem := List.mem_of_find?_eq_some h
  have hp := List.find?_some h
  simp only [beq_iff_eq] at hp
  have hmem2 : iname ∈ l.map (fun i => i.name) :=
    List.mem_map.mpr ⟨info, hmem, hp⟩
  simpa using hmem2

/-- Any `create_index` call the constructor makes carries the static
arguments: the given name, the probed dimension, metric "cosine" and the
aws / us-east-1 serverless spec. -/
theorem initEngine_createIndex_mem (gm : String) (gk pk : Option String)
    (iname : String) (env : InitEnv) (args : CreateIndexArgs)
    (hargs : Effect.createIndex args ∈ (initEngine gm gk pk iname env).1) :
    args = { name := iname, dimension := env.probe_dimension, metric := "cosine",
             spec := { cloud := "aws", region := "us-east-1" } } := by
  rw [initEngine_eq] at hargs
  split at hargs
  · simp at hargs
  · split at hargs
    · simp at hargs
    · split at hargs
      · simp only [List.mem_cons, List.mem_singleton] at hargs
        rcases hargs with h | h | h | h | h | h
        · simp at h
        · simp at h
        · simp at h
        · simp at h
        · injection h
        · simp at h
      · split at hargs
        · simp at hargs
        · split at hargs <;> simp at hargs

/-! ### Claim C1 -/

set_option maxRecDepth 40000 in
/-- C1: counterexample.  The claim says every chunk of the engine's splitter
(chunk_size 1000, chunk_overlap 200) has the fixed size of 1000 characters and
consecutive chunks overlap by 200 characters.  But the 5-character document
"hello" is returned as a single 5-character chunk, and a 1003-character
document of two long words is split into two 501-character chunks whose
trailing / leading 200 characters differ, i.e. the chunks do not overlap at
all. -/
theorem C1_counterexample :
    (splitDocuments { chunk_size := 1000, chunk_overlap := 200 } [docHello] =
        [{ page_content := "hello".data, metadata := [] }] ∧
      ("hello".data).length = 5) ∧
    (splitText 1000 200 docTwoWords.page_content =
        [List.replicate 501 'x', List.replicate 501 'y'] ∧
      (List.replicate 501 'x').drop (501 - 200) ≠ (List.replicate 501 'y').take 200) := by
  exact ⟨⟨by decide, by decide⟩, by decide, by decide⟩

/-- C1 (amended): for every engine `__init__` returns and every document list,
every chunk the engine's text splitter produces has at most 1000 characters:
`chunk_size=1000` is an upper bound on the chunk length, not an exact size,
and `chunk_overlap=200` is the configured maximum overlap carried between
consecutive chunks, not a guaranteed exact overlap. -/
theorem C1_chunks_bounded (gm : String) (gk pk : Option String) (iname : String)
    (env : InitEnv) (tr : List Effect) (st : EngineState)
    (hinit : initEngine gm gk pk iname env = (tr, .ok st))
    (docs : List Document) (chunk : Document)
    (hchunk : chunk ∈ splitDocuments st.text_splitter docs) :
    chunk.page_content.length ≤ 1000 := by
  rw [initEngine_ok_state hinit] at hchunk
  obtain ⟨src, _, _, hmem⟩ := mem_splitDocuments hchunk
  exact splitText_length_le (by norm_num) src.page_content chunk.page_content hmem

/-- C1 witness: the amended bound evaluated on a concrete engine and
document. -/
theorem C1_chunks_bounded_witness :
    ({ page_content := "hello".data, metadata := [] } : Document).page_content.length
      ≤ 1000 :=
  C1_chunks_bounded "gemini-embedding-001" (some "g") none "semantic-search" envCreate
    _ stEmpty rfl [docHello] _ (by decide)

/-! ### Claim C2 -/

/-- C2: every decision point is a static configuration value.  Whatever the
inputs and the environment, any `create_index` call the constructor makes
carries metric "cosine" and `ServerlessSpec(cloud="aws", region="us-east-1")`
(its dimension being the probed embedding dimension), and any engine state the
constructor returns carries a splitter configured with chunk_size 1000 and
chunk_overlap 200. -/
theorem C2_static_config (gm : String) (gk pk : Option String) (iname : String)
    (env : InitEnv) :
    (∀ args, Effect.createIndex args ∈ (initEngine gm gk pk iname env).1 →
      args = { name := iname, dimension := env.probe_dimension, metric := "cosine",
               spec := { cloud := "aws", region := "us-east-1" } }) ∧
    (∀ tr st, initEngine gm gk pk iname env = (tr, .ok st) →
      st.text_splitter = { chunk_size := 1000, chunk_overlap := 200 }) := by
  constructor
  · exact initEngine_createIndex_mem gm gk pk iname env
  · intro tr st h
    rw [initEngine_ok_state h]

/-- C2 witness: on a concrete run that creates the index, the created args and
the splitter configuration. -/
theorem C2_static_config_witness :
    (({ name := "semantic-search", dimension := 3072, metric := "cosine",
        spec := { cloud := "aws", region := "us-east-1" } } : CreateIndexArgs) =
      { name := "semantic-search", dimension := envCreate.probe_dimension,
        metric := "cosine", spec := { cloud := "aws", region := "us-east-1" } }) ∧
    stEmpty.text_splitter = { chunk_size := 1000, chunk_overlap := 200 } :=
  ⟨(C2_static_config "gemini-embedding-001" (some "g") none "semantic-search"
        envCreate).1 _ (by decide),
    (C2_static_config "gemini-embedding-001" (some "g") none "semantic-search"
        envCreate).2 _ stEmpty rfl⟩

/-! ### Claim C5 -/

/-- C5: counterexample.  The claim says that when the named index already
exists the engine uses it only if its metric is cosine.  But with an existing
index "semantic-search" of matching dimension and metric "euclidean",
`__init__` succeeds and the engine uses that index: the metric is never
checked. -/
theorem C5_counterexample :
    envEuclid.indexes = [{ name := "semantic-search", dimension := 3072,
                           metric := "euclidean" }] ∧
    ("euclidean" : String) ≠ "cosine" ∧
    (initEngine "gemini-embedding-001" none (some "p") "semantic-search" envEuclid).2 =
      .ok stEmpty :=
  ⟨rfl, by decide, rfl⟩

/-- C5 (amended): every index the constructor creates is created with metric
"cosine"; when the index already exists the engine verifies only that its
dimension equals the probed embedding dimension and uses it regardless of its
metric. -/
theorem C5_metric_cosine (gm : String) (gk pk : Option String) (iname : String)
    (env : InitEnv) :
    (∀ args, Effect.createIndex args ∈ (initEngine gm gk pk iname env).1 →
      args.metric = "cosine") ∧
    (∀ tr st info, initEngine gm gk pk iname env = (tr, .ok st) →
      env.indexes.find? (fun i => i.name == iname) = some info →
      info.dimension = env.probe_dimension) := by
  constructor
  · intro args hargs
    rw [initEngine_createIndex_mem gm gk pk iname env args hargs]
  · intro tr st info h hfind
    rw [initEngine_eq] at h
    split at h
    · injection h with h1 h2; simp at h2
    · split at h
      · injection h with h1 h2; simp at h2
      · split at h
        · next hc =>
          rw [contains_of_find hfind] at hc
          simp at hc
        · split at h
          · next heq => rw [hfind] at heq; simp at heq
          · next info2 heq =>
            rw [hfind] at heq
            injection heq with heq2
            split at h
            · injection h with h1 h2; simp at h2
            · next hne =>
              rw [heq2]
              exact not_ne_iff.mp hne

/-- C5 witness: the amended statement evaluated on a run that creates the
index ("cosine" args) and a run that finds a matching existing index. -/
theorem C5_metric_cosine_witness :
    ({ name := "semantic-search", dimension := 3072, metric := "cosine",
       spec := { cloud := "aws", region := "us-east-1" } } : CreateIndexArgs).metric =
      "cosine" ∧
    ({ name := "semantic-search", dimension := 3072,
       metric := "euclidean" } : IndexInfo).dimension = envEuclid.probe_dimension :=
  ⟨(C5_metric_cosine "gemini-embedding-001" (some "g") none "semantic-search"
        envCreate).1 _ (by decide),
    (C5_metric_cosine "gemini-embedding-001" none (some "p") "semantic-search"
        envEuclid).2 _ stEmpty _ rfl rfl⟩

/-! ### Claim C7 -/

/-- C7: every chunk the engine's splitter produces is a bounded, possibly
overlapping substring of a source document: at most 1000 characters (as
measured by `len`), occurring contiguously inside the source document's page
content. -/
theorem C7_chunk_substring (docs : List Document) (chunk : Document)
    (hchunk : chunk ∈ splitDocuments { chunk_size := 1000, chunk_overlap := 200 } docs) :
    ∃ src ∈ docs, chunk.page_content <:+: src.page_content ∧
      chunk.page_content.length ≤ 1000 := by
  obtain ⟨src, hsrc, _, hmem⟩ := mem_splitDocuments hchunk
  exact ⟨src, hsrc, splitText_contig 1000 200 src.page_content _ hmem,
    splitText_length_le (by norm_num) src.page_content _ hmem⟩

/-- C7 witness: the substring property evaluated on a concrete document. -/
theorem C7_chunk_substring_witness :
    ∃ src ∈ [docHello],
      ({ page_content := "hello".data, metadata := [] } : Document).page_content <:+:
        src.page_content ∧
      ({ page_content := "hello".data, metadata := [] } : Document).page_content.length
        ≤ 1000 :=
  C7_chunk_substring [docHello] _ (by decide)

/-! ### Claim C10 -/

/-- C10: when the named index exists with a dimension different from the
probed embedding dimension, `__init__` raises a ValueError, makes no
`create_index` or `delete_index` call, and returns no engine state (so
`vector_store` and `text_splitter` are never assigned); on this path
construction could only have succeeded with equal dimensions. -/
theorem C10_dimension_mismatch (gm : String) (gk pk : Option String)
    (iname : String) (env : InitEnv) (info : IndexInfo)
    (hfind : env.indexes.find? (fun i => i.name == iname) = some info)
    (hdim : info.dimension ≠ env.probe_dimension) :
    (∃ msg, (initEngine gm gk pk iname env).2 = .error (.valueError msg)) ∧
    (∀ args, Effect.createIndex args ∉ (initEngine gm gk pk iname env).1) ∧
    (∀ n, Effect.deleteIndex n ∉ (initEngine gm gk pk iname env).1) := by
  rw [initEngine_eq]
  split
  · exact ⟨⟨_, rfl⟩, by simp, by simp⟩
  · split
    · exact ⟨⟨_, rfl⟩, by simp, by simp⟩
    · split
      · next hc =>
        rw [contains_of_find hfind] at hc
        simp at hc
      · split
        · next heq => rw [hfind] at heq; simp at heq
        · next info2 heq =>
          rw [hfind] at heq
          injection heq with heq2
          rw [← heq2]
          rw [if_pos hdim]
          exact ⟨⟨_, rfl⟩, by simp, by simp⟩

/-- C10 witness: the mismatch behaviour evaluated on a concrete environment
whose index has dimension 768 while the probe returns 3072. -/
theorem C10_dimension_mismatch_witness :
    (∃ msg, (initEngine "gemini-embedding-001" (some "g") none "semantic-search"
        envMismatch).2 = .error (.valueError msg)) ∧
    (∀ args, Effect.createIndex args ∉
      (initEngine "gemini-embedding-001" (some "g") none "semantic-search"
        envMismatch).1) ∧
    (∀ n, Effect.deleteIndex n ∉
      (initEngine "gemini-embedding-001" (some "g") none "semantic-search"
        envMismatch).1) :=
  C10_dimension_mismatch "gemini-embedding-001" (some "g") none "semantic-search"
    envMismatch { name := "semantic-search", dimension := 768, metric := "cosine" }
    rfl (by decide)

/-! ### Claim C3 -/

/-- C3: on success `build_index` is the sequential pipeline split → embed →
upsert: it first computes the chunk list with the text splitter, then makes
exactly one `from_documents` call carrying the whole chunk list (the call
embeds the chunks and upserts the vectors), assigns the resulting store to
`vector_store` and returns it — no step skipped, reordered or repeated; and
afterwards `search` queries exactly the stored store. -/
theorem C3_pipeline (st : EngineState) (documents : List Document) (env : BuildEnv)
    (vs : VectorStore)
    (hok : env.fromDocumentsResult (splitDocuments st.text_splitter documents)
      st.index_name = .ok vs) :
    build_index st documents env =
      ([.printed "Split documents into chunks", .printed "Building vector store...",
          .fromDocuments (splitDocuments st.text_splitter documents) st.index_name,
          .printed "Pinecone index populated"],
        { st with vector_store := some vs }, .ok vs) ∧
    (∀ query k, search { st with vector_store := some vs } query k =
      ([.similaritySearchCall query k], { st with vector_store := some vs },
        .ok (similaritySearch vs query k))) := by
  constructor
  · rw [build_index, hok]
    rfl
  · intro query k
    rfl

/-- C3 witness: the pipeline evaluated on a concrete engine, document and
succeeding `from_documents`. -/
theorem C3_pipeline_witness :
    build_index stEmpty [docHello] buildOk =
      ([.printed "Split documents into chunks", .printed "Building vector store...",
          .fromDocuments (splitDocuments stEmpty.text_splitter [docHello])
            stEmpty.index_name,
          .printed "Pinecone index populated"],
        { stEmpty with vector_store := some vsSample }, .ok vsSample) ∧
    (∀ query k, search { stEmpty with vector_store := some vsSample } query k =
      ([.similaritySearchCall query k], { stEmpty with vector_store := some vsSample },
        .ok (similaritySearch vsSample query k))) :=
  C3_pipeline stEmpty [docHello] buildOk vsSample rfl

/-! ### Claim C4 -/

/-- C4: `build_index` performs no failure recovery beyond propagating the
exception: when `from_documents` raises, the very same exception reaches the
caller (the `GoogleGenerativeAIError` handler only prints a diagnostic before
unconditionally re-raising), the engine state — in particular `vector_store` —
is unchanged, exactly one `from_documents` call was made, and nothing beyond
prints and that one call happened (no retry, no fallback). -/
theorem C4_no_recovery (st : EngineState) (documents : List Document)
    (env : BuildEnv) (e : PyErr)
    (herr : env.fromDocumentsResult (splitDocuments st.text_splitter documents)
      st.index_name = .error e) :
    (build_index st documents env).2.1 = st ∧
    (build_index st documents env).2.2 = .error e ∧
    (build_index st documents env).1.countP (fun ef =>
      match ef with | .fromDocuments _ _ => true | _ => false) = 1 ∧
    ∀ ef ∈ (build_index st documents env).1,
      (∃ msg, ef = .printed msg) ∨
      ef = .fromDocuments (splitDocuments st.text_splitter documents) st.index_name := by
  rw [build_index, herr]
  dsimp only
  cases e with
  | googleGenAIError msg =>
    dsimp only
    by_cases hq : (strContains msg "429" || strContains (asciiLower msg) "quota") = true
    · rw [if_pos hq]
      refine ⟨rfl, rfl, rfl, ?_⟩
      intro ef h
      simp only [List.mem_append, List.mem_cons, List.not_mem_nil, or_false] at h
      rcases h with (rfl | rfl | rfl) | rfl
      · exact Or.inl ⟨_, rfl⟩
      · exact Or.inl ⟨_, rfl⟩
      · exact Or.inr rfl
      · exact Or.inl ⟨_, rfl⟩
    · rw [if_neg hq]
      refine ⟨rfl, rfl, rfl, ?_⟩
      intro ef h
      simp only [List.mem_append, List.mem_cons, List.not_mem_nil, or_false] at h
      rcases h with (rfl | rfl | rfl) | rfl
      · exact Or.inl ⟨_, rfl⟩
      · exact Or.inl ⟨_, rfl⟩
      · exact Or.inr rfl
      · exact Or.inl ⟨_, rfl⟩
  | valueError msg =>
    refine ⟨rfl, rfl, rfl, ?_⟩
    intro ef h
    simp only [List.mem_cons, List.not_mem_nil, or_false] at h
    rcases h with rfl | rfl | rfl
    · exact Or.inl ⟨_, rfl⟩
    · exact Or.inl ⟨_, rfl⟩
    · exact Or.inr rfl
  | pineconeError msg =>
    refine ⟨rfl, rfl, rfl, ?_⟩
    intro ef h
    simp only [List.mem_cons, List.not_mem_nil, or_false] at h
    rcases h with rfl | rfl | rfl
    · exact Or.inl ⟨_, rfl⟩
    · exact Or.inl ⟨_, rfl⟩
    · exact Or.inr rfl
  | otherError msg =>
    refine ⟨rfl, rfl, rfl, ?_⟩
    intro ef h
    simp only [List.mem_cons, List.not_mem_nil, or_false] at h
    rcases h with rfl | rfl | rfl
    · exact Or.inl ⟨_, rfl⟩
    · exact Or.inl ⟨_, rfl⟩
    · exact Or.inr rfl

/-- C4 witness: the propagation behaviour evaluated on a `from_documents`
that raises a quota `GoogleGenerativeAIError`. -/
theorem C4_no_recovery_witness :
    (build_index stEmpty [docHello] buildErr).2.1 = stEmpty ∧
    (build_index stEmpty [docHello] buildErr).2.2 =
      .error (.googleGenAIError "429 quota") ∧
    (build_index stEmpty [docHello] buildErr).1.countP (fun ef =>
      match ef with | .fromDocuments _ _ => true | _ => false) = 1 ∧
    ∀ ef ∈ (build_index stEmpty [docHello] buildErr).1,
      (∃ msg, ef = .printed msg) ∨
      ef = .fromDocuments (splitDocuments stEmpty.text_splitter [docHello])
        stEmpty.index_name :=
  C4_no_recovery stEmpty [docHello] buildErr (.googleGenAIError "429 quota") rfl

/-! ### Claim C8 -/

/-- C8: called while `vector_store` is `None` (before `build_index` or
`load_index` has succeeded), `search`, `search_with_scores` and
`get_collection_info` each raise a ValueError, make no call to the external
vector store (no effects at all), and leave the engine state unchanged. -/
theorem C8_uninitialized_guards (st : EngineState) (query : String) (k : Nat)
    (hnone : st.vector_store = none) :
    search st query k =
      ([], st, .error (.valueError
        "Vector store not initialized. Build or load an index first.")) ∧
    search_with_scores st query k =
      ([], st, .error (.valueError
        "Vector store not initialized. Build or load an index first.")) ∧
    get_collection_info st =
      ([], st, .error (.valueError "Vector store not initialized.")) := by
  refine ⟨?_, ?_, ?_⟩
  · rw [search, hnone]
  · rw [search_with_scores, hnone]
  · rw [get_collection_info, hnone]

/-- C8 witness: the three guards evaluated on a concrete engine with no
store. -/
theorem C8_uninitialized_guards_witness :
    search stEmpty "q" 5 =
      ([], stEmpty, .error (.valueError
        "Vector store not initialized. Build or load an index first.")) ∧
    search_with_scores stEmpty "q" 5 =
      ([], stEmpty, .error (.valueError
        "Vector store not initialized. Build or load an index first.")) ∧
    get_collection_info stEmpty =
      ([], stEmpty, .error (.valueError "Vector store not initialized.")) :=
  C8_uninitialized_guards stEmpty "q" 5 rfl

/-! ### Claim C6 -/

/-- C6: with an initialized vector store and k ≥ 1, `search_with_scores`
returns at most k (Document, score) pairs — the stored chunks whose vectors
score best against the query, each pair carrying a stored chunk with its
score, with no unreturned stored entry scoring higher than a returned one —
and `search` returns exactly the same chunks without the scores. -/
theorem C6_top_k (st : EngineState) (vs : VectorStore) (query : String) (k : Nat)
    (hvs : st.vector_store = some vs) (hk : 1 ≤ k) :
    ∃ rs rest,
      search_with_scores st query k =
        ([.similaritySearchWithScoreCall query k], st, .ok rs) ∧
      search st query k =
        ([.similaritySearchCall query k], st, .ok (rs.map Prod.fst)) ∧
      rs.length ≤ k ∧
      (rs ++ rest).Perm (scoreEntries vs query) ∧
      (∀ p ∈ rs, ∃ v, (v, p.1) ∈ vs.entries ∧
        p.2 = vs.similarity (vs.embed query) v) ∧
      (∀ p ∈ rs, ∀ b ∈ rest, b.2 ≤ p.2) := by
  refine ⟨((scoreEntries vs query).insertionSort byScoreGe).take k,
    ((scoreEntries vs query).insertionSort byScoreGe).drop k, ?_, ?_, ?_, ?_, ?_, ?_⟩
  · rw [search_with_scores, hvs]
    rfl
  · rw [search, hvs]
    rfl
  · rw [List.length_take]
    exact min_le_left k _
  · rw [List.take_append_drop]
    exact List.perm_insertionSort byScoreGe (scoreEntries vs query)
  · intro p hp
    have hp2 : p ∈ (scoreEntries vs query).insertionSort byScoreGe :=
      List.take_subset k _ hp
    have hp3 : p ∈ scoreEntries vs query :=
      (List.perm_insertionSort byScoreGe (scoreEntries vs query)).subset hp2
    obtain ⟨e, he, hpe⟩ := List.mem_map.mp hp3
    exact ⟨e.1, by rw [← hpe]; exact he, by rw [← hpe]⟩
  · intro p hp b hb
    have hsorted : List.Sorted byScoreGe ((scoreEntries vs query).insertionSort byScoreGe) :=
      List.sorted_insertionSort byScoreGe (scoreEntries vs query)
    rw [← List.take_append_drop k ((scoreEntries vs query).insertionSort byScoreGe)]
      at hsorted
    exact (List.pairwise_append.mp hsorted).2.2 p hp b hb

/-- C6 witness: the top-k property evaluated on a concrete two-entry store. -/
theorem C6_top_k_witness :
    ∃ rs rest,
      search_with_scores stSample "q" 1 =
        ([.similaritySearchWithScoreCall "q" 1], stSample, .ok rs) ∧
      search stSample "q" 1 =
        ([.similaritySearchCall "q" 1], stSample, .ok (rs.map Prod.fst)) ∧
      rs.length ≤ 1 ∧
      (rs ++ rest).Perm (scoreEntries vsSample "q") ∧
      (∀ p ∈ rs, ∃ v, (v, p.1) ∈ vsSample.entries ∧
        p.2 = vsSample.similarity (vsSample.embed "q") v) ∧
      (∀ p ∈ rs, ∀ b ∈ rest, b.2 ≤ p.2) :=
  C6_top_k stSample vsSample "q" 1 rfl (Nat.le_refl 1)

/-! ### Claim C9 -/

/-- C9: `load_documents` raises a ValueError exactly when neither path is
(truthily) provided, or when only a file path is provided and its lowercased
extension is none of .pdf, .md, .txt; a provided directory path takes
precedence (the file path is ignored and the directory is loaded with glob
"**/*.pdf"); in every non-error case it returns the loaded document list. -/
theorem C9_load_documents (file_path directory_path : Option String)
    (env : LoaderEnv) :
    ((∃ msg, (load_documents file_path directory_path env).2 =
        .error (.valueError msg)) ↔
      (truthyStr directory_path = false ∧
        (truthyStr file_path = false ∨
          (asciiLower (pySuffix (file_path.getD "")) ≠ ".pdf" ∧
            asciiLower (pySuffix (file_path.getD "")) ≠ ".md" ∧
            asciiLower (pySuffix (file_path.getD "")) ≠ ".txt")))) ∧
    (truthyStr directory_path = true →
      load_documents file_path directory_path env =
        ([.dirLoaderLoad (directory_path.getD "") "**/*.pdf"],
          .ok (env.dirLoaderResult (directory_path.getD "")))) ∧
    (truthyStr directory_path = false → truthyStr file_path = true →
      asciiLower (pySuffix (file_path.getD "")) = ".pdf" →
      load_documents file_path directory_path env =
        ([.pdfLoaderLoad (file_path.getD "")],
          .ok (env.pdfLoaderResult (file_path.getD "")))) ∧
    (truthyStr directory_path = false → truthyStr file_path = true →
      (asciiLower (pySuffix (file_path.getD "")) = ".md" ∨
        asciiLower (pySuffix (file_path.getD "")) = ".txt") →
      load_documents file_path directory_path env =
        ([.textLoaderLoad (file_path.getD "")],
          .ok (env.textLoaderResult (file_path.getD "")))) := by
  by_cases hd : truthyStr directory_path
  · refine ⟨?_, fun _ => ?_, ?_, ?_⟩
    · rw [load_documents, if_pos hd]
      simp [hd]
    · rw [load_documents, if_pos hd]
    · intro h; rw [h] at hd; simp at hd
    · intro h; rw [h] at hd; simp at hd
  · have hd2 : truthyStr directory_path = false := by simpa using hd
    by_cases hf : truthyStr file_path
    · by_cases h1 : (asciiLower (pySuffix (file_path.getD "")) == ".pdf") = true
      · have h1e : asciiLower (pySuffix (file_path.getD "")) = ".pdf" := by
          simpa using h1
        refine ⟨?_, fun h => absurd (h ▸ hd2) (by simp), fun _ _ _ => ?_, ?_⟩
        · rw [load_documents, if_neg hd, if_pos hf]
          dsimp only
          rw [if_pos h1]
          simp [hd2, h1e, hf]
        · rw [load_documents, if_neg hd, if_pos hf]
          dsimp only
          rw [if_pos h1]
        · intro _ _ hmt
          rcases hmt with hm | hm <;> rw [h1e] at hm <;> simp at hm
      · have h1e : asciiLower (pySuffix (file_path.getD "")) ≠ ".pdf" := by
          simpa using h1
        by_cases h2 : (asciiLower (pySuffix (file_path.getD "")) == ".md" ||
            asciiLower (pySuffix (file_path.getD "")) == ".txt") = true
        · have h2e : asciiLower (pySuffix (file_path.getD "")) = ".md" ∨
              asciiLower (pySuffix (file_path.getD "")) = ".txt" := by
            simpa using h2
          refine ⟨?_, fun h => absurd (h ▸ hd2) (by simp),
            fun _ _ hpdf => absurd hpdf h1e, fun _ _ _ => ?_⟩
          · rw [load_documents, if_neg hd, if_pos hf]
            dsimp only
            rw [if_neg h1, if_pos h2]
            constructor
            · rintro ⟨msg, hmsg⟩
              simp at hmsg
            · rintro ⟨hdd, hff | ⟨ha, hb, hc⟩⟩
              · rw [hff] at hf; simp at hf
              · rcases h2e with hm | hm
                · exact absurd hm hb
                · exact absurd hm hc
          · rw [load_documents, if_neg hd, if_pos hf]
            dsimp only
            rw [if_neg h1, if_pos h2]
        · have h2e : asciiLower (pySuffix (file_path.getD "")) ≠ ".md" ∧
              asciiLower (pySuffix (file_path.getD "")) ≠ ".txt" := by
            simpa [not_or] using h2
          refine ⟨?_, fun h => absurd (h ▸ hd2) (by simp),
            fun _ _ hpdf => absurd hpdf h1e, fun _ _ hmt => ?_⟩
          · rw [load_documents, if_neg hd, if_pos hf]
            dsimp only
            rw [if_neg h1, if_neg h2]
            exact ⟨fun _ => ⟨hd2, Or.inr ⟨h1e, h2e.1, h2e.2⟩⟩, fun _ => ⟨_, rfl⟩⟩
          · rcases hmt with hm | hm
            · exact absurd hm h2e.1
            · exact absurd hm h2e.2
    · have hf2 : truthyStr file_path = false := by simpa using hf
      refine ⟨?_, fun h => absurd (h ▸ hd2) (by simp),
        fun _ h => absurd (h ▸ hf2) (by simp),
        fun _ h _ => absurd (h ▸ hf2) (by simp)⟩
      rw [load_documents, if_neg hd, if_neg hf]
      exact ⟨fun _ => ⟨hd2, Or.inl hf2⟩, fun _ => ⟨_, rfl⟩⟩

/-- C9 witness: the loader behaviour evaluated at concrete arguments —
directory precedence with both paths given, and a .txt file path. -/
theorem C9_load_documents_witness :
    (load_documents (some "notes.txt") (some "papers") loaderSample =
      ([.dirLoaderLoad "papers" "**/*.pdf"], .ok [docA])) ∧
    (load_documents (some "notes.txt") none loaderSample =
      ([.textLoaderLoad "notes.txt"], .ok [docB])) :=
  ⟨(C9_load_documents (some "notes.txt") (some "papers") loaderSample).2.1 rfl,
    (C9_load_documents (some "notes.txt") none loaderSample).2.2.2 rfl rfl
      (Or.inr (by decide))⟩

end SemanticSearch
